import Mathlib

/-!
Verification of the spell-cast-rs backend core against its design
specification.  The Rust sources are shallowly embedded: pure game logic
(validator, scorer, grid generator) becomes Lean functions, the stateful
WebSocket handlers become pure functions over explicit state records with
random choices and fallible externals passed in as oracle arguments, and
machine integers become Nat/Int.
-/

namespace SpellCast

/-- Board position, from models/game.rs `Position {row, col}` (usize fields). -/
structure Position where
  row : Nat
  col : Nat
deriving DecidableEq, Repr

/-- Cell multiplier, from models/game.rs `Multiplier`. -/
inductive Multiplier where
  | DoubleLetter
  | TripleLetter
  | DoubleWord
deriving DecidableEq, Repr

/-- Grid cell, from models/game.rs `GridCell`.  `value` is u8 in the source;
letter values are tiny so Nat is a faithful carrier. -/
structure GridCell where
  letter : Char
  value : Nat
  multiplier : Option Multiplier
  has_gem : Bool
deriving DecidableEq, Repr

/-- `Grid = Vec<Vec<GridCell>>` from models/game.rs. -/
abbrev Grid := List (List GridCell)

/-- Rust `grid[pos.row][pos.col]` panics out of bounds; embedded as an
Option-valued lookup where `none` is the panic. -/
def cellAt (grid : Grid) (p : Position) : Option GridCell :=
  match grid.get? p.row with
  | some r => r.get? p.col
  | none => none

namespace WordValidator

/-- From validator.rs `are_adjacent`: absolute row/column differences (i32
arithmetic, embedded as Int) at most 1 and not both zero. -/
def are_adjacent (p1 p2 : Position) : Bool :=
  let row_diff : Nat := ((p1.row : Int) - (p2.row : Int)).natAbs
  let col_diff : Nat := ((p1.col : Int) - (p2.col : Int)).natAbs
  decide (row_diff ≤ 1) && decide (col_diff ≤ 1) && decide (0 < row_diff + col_diff)

/-- The `positions.windows(2)` loop of validator.rs `is_valid_path`: every
consecutive pair adjacent. -/
def chainAdjacent : List Position → Bool
  | p1 :: p2 :: rest => are_adjacent p1 p2 && chainAdjacent (p2 :: rest)
  | _ => true

/-- From validator.rs `is_valid_path`: non-empty, consecutive positions
adjacent, no duplicate position (HashSet cardinality check), all in the 5x5
bounds.  The grid argument is unused in the source as well. -/
def is_valid_path (_grid : Grid) (positions : List Position) : Bool :=
  !positions.isEmpty &&
    chainAdjacent positions &&
    decide positions.Nodup &&
    positions.all fun p => decide (p.row < 5) && decide (p.col < 5)

end WordValidator

/-- Result of scoring, from scorer.rs `ScoreResult` (i32 fields). -/
structure ScoreResult where
  score : Int
  gems_collected : Int
deriving DecidableEq, Repr

namespace Scorer

/-- The per-position loop of scorer.rs `calculate_score_with_gems`,
accumulating letter total, double-word flag and gem count; `none` models the
out-of-bounds indexing panic. -/
def scoreLoop (grid : Grid) : List Position → Int → Bool → Int → Option (Int × Bool × Int)
  | [], total, dw, gems => some (total, dw, gems)
  | p :: ps, total, dw, gems =>
    match cellAt grid p with
    | none => none
    | some cell =>
      let base : Int := (cell.value : Int)
      let step : Int × Bool :=
        match cell.multiplier with
        | some Multiplier.DoubleLetter => (base * 2, dw)
        | some Multiplier.TripleLetter => (base * 3, dw)
        | some Multiplier.DoubleWord => (base, true)
        | none => (base, dw)
      scoreLoop grid ps (total + step.1) step.2
        (gems + (if cell.has_gem then 1 else 0))

/-- From scorer.rs `length_bonus`: flat +10 for paths of length at least 6. -/
def length_bonus (length : Nat) : Int :=
  if length ≥ 6 then 10 else 0

/-- From scorer.rs `calculate_score_with_gems`. -/
def calculate_score_with_gems (grid : Grid) (positions : List Position) :
    Option ScoreResult :=
  (scoreLoop grid positions 0 false 0).map fun r =>
    let word_score := if r.2.1 then r.1 * 2 else r.1
    { score := word_score + length_bonus positions.length
      gems_collected := r.2.2 }

/-- From scorer.rs `calculate_score`. -/
def calculate_score (grid : Grid) (positions : List Position) : Option Int :=
  (calculate_score_with_gems grid positions).map ScoreResult.score

end Scorer

/-- From utils/letters.rs `get_letter_value`: fixed letter-to-value map with
default 1. -/
def get_letter_value (letter : Char) : Nat :=
  let upper := letter.toUpper
  if upper = 'A' ∨ upper = 'E' ∨ upper = 'I' ∨ upper = 'O' then 1
  else if upper = 'N' ∨ upper = 'R' ∨ upper = 'S' ∨ upper = 'T' then 2
  else if upper = 'D' ∨ upper = 'G' ∨ upper = 'L' then 3
  else if upper = 'B' ∨ upper = 'H' ∨ upper = 'M' ∨ upper = 'P' ∨ upper = 'U' ∨ upper = 'Y' then 4
  else if upper = 'C' ∨ upper = 'F' ∨ upper = 'V' ∨ upper = 'W' then 5
  else if upper = 'K' then 6
  else if upper = 'J' ∨ upper = 'X' then 7
  else if upper = 'Q' ∨ upper = 'Z' then 8
  else 1

/-- The RNG is embedded as the stream of values it will produce; each draw
consumes the head (an empty stream keeps yielding 0, which is one fixed
outcome of the random choices). -/
abbrev Rng := List Nat

/-- `rng.random_range(0..n)`: a uniform draw below `n`, embedded as the next
stream element reduced mod `n`. -/
def randBelow (n : Nat) (rng : Rng) : Nat × Rng :=
  (rng.headD 0 % n, rng.tail)

/-- `rng.random_range(lo..=hi)` (inclusive range). -/
def randRangeIncl (lo hi : Nat) (rng : Rng) : Nat × Rng :=
  let r := randBelow (hi + 1 - lo) rng
  (lo + r.1, r.2)

/-- In-place update of one list index (`grid[row][col].multiplier = ...`);
out-of-range indices leave the list unchanged, matching the always-in-range
uses in the source. -/
def modifyIdx : List α → Nat → (α → α) → List α
  | [], _, _ => []
  | a :: as, 0, f => f a :: as
  | a :: as, i + 1, f => a :: modifyIdx as i f

namespace GridGenerator

/-- One iteration of the multiplier loops in grid.rs `add_multipliers`: pick a
random cell and set the multiplier only if the cell has none (collisions are
skipped). -/
def placeOne (m : Multiplier) (st : Grid × Rng) : Grid × Rng :=
  let (row, rng1) := randBelow 5 st.2
  let (col, rng2) := randBelow 5 rng1
  let keep :=
    match cellAt st.1 ⟨row, col⟩ with
    | some cell => cell.multiplier.isNone
    | none => false
  let grid :=
    if keep then
      modifyIdx st.1 row fun r =>
        modifyIdx r col fun cell => { cell with multiplier := some m }
    else st.1
  (grid, rng2)

/-- `for _ in 0..count` around `placeOne`. -/
def placeLoop (m : Multiplier) : Nat → Grid × Rng → Grid × Rng
  | 0, st => st
  | n + 1, st => placeLoop m n (placeOne m st)

/-- From grid.rs `add_multipliers`: 3..=5 double-letter attempts then 2..=3
triple-letter attempts, each skipped on collision. -/
def add_multipliers (grid : Grid) (rng : Rng) : Grid × Rng :=
  let (dl_count, rng1) := randRangeIncl 3 5 rng
  let (g1, rng2) := placeLoop Multiplier.DoubleLetter dl_count (grid, rng1)
  let (tl_count, rng3) := randRangeIncl 2 3 rng2
  placeLoop Multiplier.TripleLetter tl_count (g1, rng3)

/-- From grid.rs `generate`: a 5x5 grid of sampled letters (the f32
inverse-CDF letter sampler is abstracted into the `letters` stream, of which
the claims are independent), then `add_multipliers`.  The `GridCell` literal
in the source sets no multiplier and no gem. -/
def generate (letters : List Char) (rng : Rng) : Grid × Rng :=
  let grid : Grid :=
    (List.range 5).map fun i =>
      (List.range 5).map fun j =>
        let letter := letters.getD (5 * i + j) 'E'
        { letter := letter
          value := get_letter_value letter
          multiplier := none
          has_gem := false }
  add_multipliers grid rng

end GridGenerator

/-- The multiplier count checked by the grid.rs test
`test_grid_has_multipliers`. -/
def multiplierCount (grid : Grid) : Nat :=
  (grid.flatten.filter fun cell => cell.multiplier.isSome).length

/-- From main.rs `LOBBY_CODE_CHARSET`: 32 readable characters (I/O/0/1
excluded). -/
def LOBBY_CODE_CHARSET : List Char :=
  "ABCDEFGHJKLMNPQRSTUVWXYZ23456789".toList

/-- From main.rs `LOBBY_CODE_LENGTH`. -/
def LOBBY_CODE_LENGTH : Nat := 6

/-- The per-character draw of main.rs `generate_lobby_code`, iterated
`n` times: index below the charset length, then the charset character. -/
def codeChars : Nat → Rng → List Char × Rng
  | 0, rng => ([], rng)
  | n + 1, rng =>
    let (idx, rng1) := randBelow LOBBY_CODE_CHARSET.length rng
    let rest := codeChars n rng1
    (LOBBY_CODE_CHARSET.getD idx 'A' :: rest.1, rest.2)

/-- From main.rs `generate_lobby_code`: six independent uniform draws from
the charset; a single pass, with no retry of any kind. -/
def generate_lobby_code (rng : Rng) : List Char × Rng :=
  codeChars LOBBY_CODE_LENGTH rng

/-- The slice of lobby state that lobby creation and the code index touch. -/
structure LobbyEntry where
  lobby_id : List Char
  isCustom : Bool
  lobby_code : Option (List Char)
deriving DecidableEq, Repr

/-- A concurrent map keyed by strings, embedded as an association list whose
`insert` replaces the key (DashMap::insert semantics). -/
def mapInsert (k : List Char) (v : α) (m : List (List Char × α)) :
    List (List Char × α) :=
  (k, v) :: m.filter fun e => e.1 ≠ k

/-- DashMap::get, embedded as association-list lookup. -/
def mapGet (k : List Char) (m : List (List Char × α)) : Option α :=
  (m.find? fun e => e.1 = k).map Prod.snd

/-- DashMap::remove. -/
def mapRemove (k : List Char) (m : List (List Char × α)) :
    List (List Char × α) :=
  m.filter fun e => e.1 ≠ k

/-- The registry slice of main.rs `AppState`: `lobbies` keyed by lobby_id and
`lobby_code_index` keyed by code. -/
structure Registry where
  lobbies : List (List Char × LobbyEntry)
  lobby_code_index : List (List Char × List Char)
deriving Repr

/-- From main.rs `Lobby::new_custom`: one call to `generate_lobby_code`, the
lobby_id is `custom:<code>`. -/
def Lobby.new_custom (rng : Rng) : LobbyEntry × Rng :=
  let (code, rng1) := generate_lobby_code rng
  ({ lobby_id := "custom:".toList ++ code
     isCustom := true
     lobby_code := some code }, rng1)

/-- From handler.rs `create_custom_lobby`: build the lobby, register the code
in the code index and the lobby in the registry (both inserts replace any
existing entry with the same key; there is no collision check). -/
def create_custom_lobby (st : Registry) (rng : Rng) :
    (List Char × List Char) × Registry × Rng :=
  let (lobby, rng1) := Lobby.new_custom rng
  let lobby_id := lobby.lobby_id
  let lobby_code := lobby.lobby_code.getD []
  let st1 : Registry :=
    { lobbies := mapInsert lobby_id lobby st.lobbies
      lobby_code_index := mapInsert lobby_code lobby_id st.lobby_code_index }
  ((lobby_id, lobby_code), st1, rng1)

/-- From main.rs `PlayerConnectionState`; `Instant` is embedded as a Nat
count of elapsed seconds. -/
inductive PlayerConnectionState where
  | Connected
  | AwaitingReconnect (since : Nat)
deriving DecidableEq, Repr

/-- From main.rs `PLAYER_DISCONNECT_GRACE_PERIOD` (60 s). -/
def PLAYER_DISCONNECT_GRACE_PERIOD : Nat := 60

/-- From main.rs `LOBBY_EMPTY_GRACE_PERIOD` (120 s). -/
def LOBBY_EMPTY_GRACE_PERIOD : Nat := 120

/-- The slice of main.rs `Lobby` that the cleanup task reads and writes. -/
structure CleanLobby where
  players : List (Int × PlayerConnectionState)
  lobby_code : Option (List Char)
  empty_since : Option Nat
deriving DecidableEq, Repr

/-- The slice of `AppState` the cleanup task touches. -/
structure CleanupState where
  lobbies : List (List Char × CleanLobby)
  lobby_code_index : List (List Char × List Char)
deriving Repr

/-- `Instant::duration_since` in whole seconds (saturating, as in Rust). -/
def duration_since (now earlier : Nat) : Nat := now - earlier

namespace Cleanup

/-- The first scan of main.rs `lobby_cleanup_task`: players whose
`AwaitingReconnect` grace period has expired, as (lobby_id, user_id) pairs. -/
def players_to_remove (now : Nat) (st : CleanupState) : List (List Char × Int) :=
  st.lobbies.flatMap fun e =>
    e.2.players.filterMap fun p =>
      match p.2 with
      | PlayerConnectionState.AwaitingReconnect since =>
        if duration_since now since > PLAYER_DISCONNECT_GRACE_PERIOD then
          some (e.1, p.1)
        else none
      | PlayerConnectionState.Connected => none

/-- The second scan: lobbies whose `empty_since` grace period has expired. -/
def lobbies_to_remove (now : Nat) (st : CleanupState) : List (List Char) :=
  st.lobbies.filterMap fun e =>
    match e.2.empty_since with
    | some empty_since =>
      if duration_since now empty_since > LOBBY_EMPTY_GRACE_PERIOD then
        some e.1
      else none
    | none => none

/-- One stale-player removal: `lobby.players.remove(&user_id)` followed by a
player-list broadcast to that lobby (recorded in the second component). -/
def removeStalePlayer (st : CleanupState × List (List Char))
    (pr : List Char × Int) : CleanupState × List (List Char) :=
  match mapGet pr.1 st.1.lobbies with
  | some lobby =>
    let lobby1 := { lobby with players := lobby.players.filter fun p => p.1 ≠ pr.2 }
    ({ st.1 with lobbies := mapInsert pr.1 lobby1 st.1.lobbies }, st.2 ++ [pr.1])
  | none => st

/-- One stale-lobby removal: `state.lobbies.remove` plus the code-index entry
when the lobby has a code. -/
def removeStaleLobby (st : CleanupState) (lobby_id : List Char) : CleanupState :=
  match mapGet lobby_id st.lobbies with
  | some lobby =>
    { lobbies := mapRemove lobby_id st.lobbies
      lobby_code_index :=
        match lobby.lobby_code with
        | some code => mapRemove code st.lobby_code_index
        | none => st.lobby_code_index }
  | none => st

/-- One sweep of main.rs `lobby_cleanup_task`: scan, then remove stale
players (broadcasting per removal), then remove stale lobbies.  Returns the
new state and the list of lobbies that received a player-list broadcast. -/
def sweep (now : Nat) (st : CleanupState) : CleanupState × List (List Char) :=
  let toRemoveP := players_to_remove now st
  let toRemoveL := lobbies_to_remove now st
  let afterPlayers := toRemoveP.foldl removeStalePlayer (st, [])
  (toRemoveL.foldl removeStaleLobby afterPlayers.1, afterPlayers.2)

end Cleanup

/-- The fields of models/game.rs `GameState` that the SubmitWord and PassTurn
arms read (u8/usize fields as Nat; the `used_words` HashSet as a list used
through membership and append only). -/
structure GameStateR where
  grid : Grid
  current_round : Nat
  total_rounds : Nat
  current_player_index : Nat
  used_words : List String
deriving Repr

/-- The fields of models/game.rs `GamePlayerRecord` the handlers use. -/
structure PlayerRec where
  user_id : Int
  score : Int
deriving DecidableEq, Repr

/-- Rust `str::to_uppercase`, embedded character-wise (the game handles
ASCII words). -/
def to_uppercase (s : String) : String :=
  String.mk (s.data.map Char.toUpper)

/-- From dictionary/mod.rs `Dictionary::contains`: membership of the
upper-cased word (the loaded set holds upper-cased entries). -/
def Dictionary.contains (words : List String) (word : String) : Bool :=
  words.contains (to_uppercase word)

/-- From queries.rs `update_player_score`: the SQL is
`UPDATE game_players SET score = $1 WHERE game_id = $2 AND user_id = $3` —
it stores the given value, embedded as a map over the game rows. -/
def update_player_score (records : List PlayerRec) (user_id : Int)
    (score : Int) : List PlayerRec :=
  records.map fun p => if p.user_id = user_id then { p with score := score } else p

/-- Rust `iter().max_by_key(|p| p.score)` (ties keep the later element). -/
def max_by_key_score (records : List PlayerRec) : Option PlayerRec :=
  records.foldl
    (fun acc p =>
      match acc with
      | none => some p
      | some q => if q.score ≤ p.score then some p else some q)
    none

/-- Outcome of the SubmitWord / PassTurn arms of handler.rs
`handle_client_message`.  The two panic constructors model the two reachable
Rust panics (grid indexing and `% 0`). -/
inductive SubmitResult where
  | silentReturn
  | notYourTurn
  | invalidWord (reason : String)
  | panicScore
  | panicDivByZero
  | gameOver (winner : Option Int) (final_scores : List (Int × Int))
      (used_words : List String)
  | advanced (next_idx : Nat) (new_round : Nat) (next_player_id : Int)
      (used_words : List String)
deriving DecidableEq, Repr

/-- The reply plus the persistent side effects of one SubmitWord / PassTurn
arm: the game_players rows after the handler, the lobby `active_game_id`
after the handler, and the `update_game_round` argument when it is called. -/
structure SubmitEffects where
  result : SubmitResult
  records : List PlayerRec
  active_game_id : Option String
  roundTurn : Option (Nat × Int)
deriving DecidableEq, Repr

/-- From handler.rs, the `ClientMessage::SubmitWord` arm (lines 1053-1256),
beginning at the turn check on the fetched game state and player records:
turn validation, path validation, dictionary lookup, scoring, score write,
turn/round advancement and game-over handling.  There is no used-words
uniqueness check in the source; the board used-words update is commented
out, so the appended `used_words` list reaches only the broadcast. -/
def submitWord (dict : List String) (gs : GameStateR) (records : List PlayerRec)
    (uid : Int) (word : String) (positions : List Position)
    (active : Option String) : SubmitEffects :=
  let current_turn := (records.get? gs.current_player_index).map PlayerRec.user_id
  if current_turn ≠ some uid then
    ⟨SubmitResult.notYourTurn, records, active, none⟩
  else if ¬ WordValidator.is_valid_path gs.grid positions then
    ⟨SubmitResult.invalidWord "Invalid path", records, active, none⟩
  else if ¬ Dictionary.contains dict word then
    ⟨SubmitResult.invalidWord "Word not found in dictionary", records, active, none⟩
  else
    match Scorer.calculate_score gs.grid positions with
    | none => ⟨SubmitResult.panicScore, records, active, none⟩
    | some word_score =>
      let records1 := update_player_score records uid word_score
      let num_players := records.length
      if num_players = 0 then
        ⟨SubmitResult.panicDivByZero, records1, active, none⟩
      else
        let current_idx := gs.current_player_index
        let next_idx := (current_idx + 1) % num_players
        let round_complete :=
          decide (next_idx < current_idx) ||
            (decide (next_idx = 0) && decide (current_idx = num_players - 1))
        let new_round := if round_complete then gs.current_round + 1 else gs.current_round
        let used_words := gs.used_words ++ [to_uppercase word]
        if new_round > gs.total_rounds then
          let winner := (max_by_key_score records1).map PlayerRec.user_id
          ⟨SubmitResult.gameOver winner (records1.map fun p => (p.user_id, p.score))
              used_words,
            records1, none, none⟩
        else
          let next_player_id := (((records.get? next_idx).map PlayerRec.user_id)).getD 0
          ⟨SubmitResult.advanced next_idx new_round next_player_id used_words,
            records1, active, some (new_round, next_player_id)⟩

/-- From handler.rs, the `ClientMessage::PassTurn` arm (lines 1259-1432),
beginning at the empty-records early return on the fetched state: same
advancement as SubmitWord but with no scoring, no used-words append and no
grid replacement. -/
def passTurn (gs : GameStateR) (records : List PlayerRec) (uid : Int)
    (active : Option String) : SubmitEffects :=
  if records.isEmpty then
    ⟨SubmitResult.silentReturn, records, active, none⟩
  else
    let current_turn := (records.get? gs.current_player_index).map PlayerRec.user_id
    if current_turn ≠ some uid then
      ⟨SubmitResult.notYourTurn, records, active, none⟩
    else
      let num_players := records.length
      if num_players = 0 then
        ⟨SubmitResult.panicDivByZero, records, active, none⟩
      else
        let current_idx := gs.current_player_index
        let next_idx := (current_idx + 1) % num_players
        let round_complete :=
          decide (next_idx < current_idx) ||
            (decide (next_idx = 0) && decide (current_idx = num_players - 1))
        let new_round := if round_complete then gs.current_round + 1 else gs.current_round
        let used_words := gs.used_words
        if new_round > gs.total_rounds then
          let winner := (max_by_key_score records).map PlayerRec.user_id
          ⟨SubmitResult.gameOver winner (records.map fun p => (p.user_id, p.score))
              used_words,
            records, none, none⟩
        else
          let next_player_id := (((records.get? next_idx).map PlayerRec.user_id)).getD 0
          ⟨SubmitResult.advanced next_idx new_round next_player_id used_words,
            records, active, some (new_round, next_player_id)⟩

/-- The slice of lobby state that handler.rs `handle_start_game` touches.
Players are (user_id, is_connected) pairs. -/
structure LobbyStart where
  host_id : Option Int
  game_starting : Bool
  active_game_id : Option String
  players : List (Int × Bool)
deriving DecidableEq, Repr

/-- Modelled from the spec: `Lobby::is_host` is called throughout handler.rs
but not defined in the sources; the spec fixes `host_id` as the designated
member, so the check is equality with `host_id`. -/
def LobbyStart.is_host (l : LobbyStart) (uid : Int) : Bool :=
  l.host_id = some uid

/-- Modelled from the spec: `Lobby::try_start_game` is called in handler.rs
but not defined in the sources.  The spec defines it as an atomic
check-and-set that succeeds only if `active_game_id.is_none() ∧
¬game_starting`, setting `game_starting = true`. -/
def LobbyStart.try_start_game (l : LobbyStart) : Bool × LobbyStart :=
  if l.active_game_id = none ∧ l.game_starting = false then
    (true, { l with game_starting := true })
  else
    (false, l)

/-- Modelled from the spec: `Lobby::clear_game_starting` is called in
handler.rs but not defined in the sources; it clears the `game_starting`
flag. -/
def LobbyStart.clear_game_starting (l : LobbyStart) : LobbyStart :=
  { l with game_starting := false }

/-- From main.rs `Lobby::connected_player_count`. -/
def LobbyStart.connected_player_count (l : LobbyStart) : Nat :=
  (l.players.filter fun p => p.2).length

/-- The external outcomes that handler.rs `handle_start_game` consumes: the
shuffle result and the success of each fallible persistence/serialization
step. -/
structure StartGameOracle where
  letters : List Char
  rng : Rng
  shuffled : List Int
  createSession : Option String
  addPlayersOk : Bool
  serializeGridOk : Bool
  createBoardOk : Bool
  setActiveOk : Bool

/-- From handler.rs `handle_start_game` (lines 558-766), for an existing
lobby: host check, `try_start_game`, connected-player count bounds, grid
generation, shuffle, then the four fallible persistence/serialization steps
(each clearing `game_starting` on failure via `clear_and_err`), finally
linking the game and clearing the flag.  Errors are the `game_error` codes
sent to the client. -/
def handle_start_game (l : LobbyStart) (uid : Int) (o : StartGameOracle) :
    Except String (String × Grid × List Int × Int) × LobbyStart :=
  if ¬ l.is_host uid then
    (Except.error "not_host", l)
  else
    let started := l.try_start_game
    if ¬ started.1 then
      (Except.error "game_in_progress", started.2)
    else
      let l1 := started.2
      let connected_count := l1.connected_player_count
      if connected_count < 2 then
        (Except.error "not_enough_players", l1.clear_game_starting)
      else if connected_count > 6 then
        (Except.error "too_many_players", l1.clear_game_starting)
      else
        let grid := (GridGenerator.generate o.letters o.rng).1
        let current_player_id := (o.shuffled.get? 0).getD 0
        match o.createSession with
        | none => (Except.error "database_error", l1.clear_game_starting)
        | some game_id =>
          if ¬ o.addPlayersOk then
            (Except.error "database_error", l1.clear_game_starting)
          else if ¬ o.serializeGridOk then
            (Except.error "serialization_error", l1.clear_game_starting)
          else if ¬ o.createBoardOk then
            (Except.error "database_error", l1.clear_game_starting)
          else if ¬ o.setActiveOk then
            (Except.error "database_error", l1.clear_game_starting)
          else
            (Except.ok (game_id, grid, o.shuffled, current_player_id),
              { l1 with active_game_id := some game_id, game_starting := false })

/-! ## Concrete fixtures -/

/-- A cell with no multiplier and no gem, as the generator builds them. -/
def plainCell (c : Char) : GridCell :=
  { letter := c, value := get_letter_value c, multiplier := none, has_gem := false }

/-- A grid row from a five-letter string. -/
def rowOf (s : String) : List GridCell :=
  s.toList.map plainCell

/-- A 5x5 grid whose first row spells CATES; all values from the letter
table, no multipliers. -/
def catGrid : Grid :=
  [rowOf "CATES", rowOf "EEEEE", rowOf "EEEEE", rowOf "EEEEE", rowOf "EEEEE"]

/-- The path tracing CAT along row 0. -/
def catPath : List Position :=
  [⟨0, 0⟩, ⟨0, 1⟩, ⟨0, 2⟩]

/-- Session state in which CAT has already been played and it is the turn of
the player at index 1. -/
def dupGS : GameStateR :=
  { grid := catGrid, current_round := 1, total_rounds := 5
    current_player_index := 1, used_words := ["CAT"] }

/-- Two players; player 1 has already scored 8 with CAT. -/
def dupRecords : List PlayerRec :=
  [⟨1, 8⟩, ⟨2, 0⟩]

/-- Session state at player index 0. -/
def scoreGS : GameStateR :=
  { grid := catGrid, current_round := 1, total_rounds := 5
    current_player_index := 0, used_words := [] }

/-- Two players; player 1 already holds a persisted score of 5. -/
def scoreRecords : List PlayerRec :=
  [⟨1, 5⟩, ⟨2, 0⟩]

/-- The empty lobby registry. -/
def emptyRegistry : Registry :=
  { lobbies := [], lobby_code_index := [] }

/-- Session state on the final turn of a one-round game. -/
def passGS : GameStateR :=
  { grid := catGrid, current_round := 1, total_rounds := 1
    current_player_index := 1, used_words := ["CAT"] }

/-! ## Claim theorems -/

/-- Spec-side per-cell letter score: the cell value doubled under DL,
tripled under TL, and unchanged otherwise (DW does not touch the letter). -/
def specLetterScore (grid : Grid) (p : Position) : Int :=
  match cellAt grid p with
  | some c =>
    (c.value : Int) *
      (match c.multiplier with
       | some Multiplier.DoubleLetter => 2
       | some Multiplier.TripleLetter => 3
       | _ => 1)
  | none => 0


/-- Whether the cell at `p` carries the double-word multiplier. -/
def cellHasDW (grid : Grid) (p : Position) : Bool :=
  match cellAt grid p with
  | some c => c.multiplier = some Multiplier.DoubleWord
  | none => false


/-- Whether the cell at `p` carries a gem. -/
def cellHasGem (grid : Grid) (p : Position) : Bool :=
  match cellAt grid p with
  | some c => c.has_gem
  | none => false


/-- The seeded SPELLS row of spec scenario 2: S(2, DW), P(4), E(1), L(3),
L(3), S(2). -/
def spellsGrid : Grid :=
  [[{ letter := 'S', value := 2, multiplier := some Multiplier.DoubleWord, has_gem := false },
    { letter := 'P', value := 4, multiplier := none, has_gem := false },
    { letter := 'E', value := 1, multiplier := none, has_gem := false },
    { letter := 'L', value := 3, multiplier := none, has_gem := false },
    { letter := 'L', value := 3, multiplier := none, has_gem := false },
    { letter := 'S', value := 2, multiplier := none, has_gem := false }]]


/-- The 6-cell SPELLS path along row 0. -/
def spellsPath : List Position :=
  [⟨0, 0⟩, ⟨0, 1⟩, ⟨0, 2⟩, ⟨0, 3⟩, ⟨0, 4⟩, ⟨0, 5⟩]


/-- Spec-side 8-way adjacency: both coordinate differences have absolute
value at most 1 and the differences are not both zero. -/
def specAdjacent (p q : Position) : Prop :=
  |(p.row : Int) - (q.row : Int)| ≤ 1 ∧ |(p.col : Int) - (q.col : Int)| ≤ 1 ∧
    ¬((p.row : Int) - (q.row : Int) = 0 ∧ (p.col : Int) - (q.col : Int) = 0)


/-- Lobby fixture for the start-game claims: host 1, one connected player,
no active game, flag clear. -/
def startLobby : LobbyStart :=
  { host_id := some 1, game_starting := false, active_game_id := none
    players := [(1, true)] }


/-- Oracle in which every external step succeeds. -/
def startOracle : StartGameOracle :=
  { letters := [], rng := [], shuffled := [1], createSession := some "g"
    addPlayersOk := true, serializeGridOk := true, createBoardOk := true
    setActiveOk := true }


/-- A lobby fixture for the cleanup claims: one player long disconnected,
lobby empty since time 0 and carrying code AAAAAA. -/
def cleanLobbyFx : CleanLobby :=
  { players := [(7, PlayerConnectionState.AwaitingReconnect 0)]
    lobby_code := some "AAAAAA".toList
    empty_since := some 0 }


/-- A cleanup-state fixture holding only `cleanLobbyFx` under id L. -/
def cleanupStateFx : CleanupState :=
  { lobbies := [("L".toList, cleanLobbyFx)]
    lobby_code_index := [("AAAAAA".toList, "L".toList)] }


theorem round_complete_eq (N i : Nat) (h : i < N) :
    (decide ((i + 1) % N < i) || (decide ((i + 1) % N = 0) && decide (i = N - 1)))
      = decide (i = N - 1) := by
  by_cases hi : i = N - 1
  · subst hi
    have hN : (N - 1 + 1) % N = 0 := by
      have h1 : N - 1 + 1 = N := by omega
      rw [h1, Nat.mod_self]
    simp [hN]
  · have hlt : i + 1 < N := by omega
    have hN : (i + 1) % N = i + 1 := Nat.mod_eq_of_lt hlt
    simp [hN, hi]

theorem max_by_key_score_go (l : List PlayerRec) :
    ∀ q : PlayerRec,
      ∃ w, l.foldl
          (fun acc p =>
            match acc with
            | none => some p
            | some q => if q.score ≤ p.score then some p else some q)
          (some q) = some w
        ∧ (w = q ∨ w ∈ l) ∧ q.score ≤ w.score ∧ ∀ x ∈ l, x.score ≤ w.score := by
  induction l with
  | nil => intro q; exact ⟨q, rfl, Or.inl rfl, le_refl _, by simp⟩
  | cons p l ih =>
    intro q
    by_cases hle : q.score ≤ p.score
    · obtain ⟨w, hw, hmem, hge, hall⟩ := ih p
      refine ⟨w, ?_, ?_, le_trans hle hge, ?_⟩
      · simpa [hle] using hw
      · rcases hmem with rfl | hmem
        · exact Or.inr (List.mem_cons_self _ _)
        · exact Or.inr (List.mem_cons_of_mem _ hmem)
      · intro x hx
        rcases List.mem_cons.mp hx with rfl | hx
        · exact hge
        · exact hall x hx
    · obtain ⟨w, hw, hmem, hge, hall⟩ := ih q
      refine ⟨w, ?_, ?_, hge, ?_⟩
      · simpa [hle] using hw
      · rcases hmem with rfl | hmem
        · exact Or.inl rfl
        · exact Or.inr (List.mem_cons_of_mem _ hmem)
      · intro x hx
        rcases List.mem_cons.mp hx with rfl | hx
        · omega
        · exact hall x hx

theorem max_by_key_score_spec (records : List PlayerRec) (h : records ≠ []) :
    ∃ w, max_by_key_score records = some w ∧ w ∈ records ∧
      ∀ q ∈ records, q.score ≤ w.score := by
  match records, h with
  | r :: rs, _ =>
    obtain ⟨w, hw, hmem, hge, hall⟩ := max_by_key_score_go rs r
    refine ⟨w, ?_, ?_, ?_⟩
    · simpa [max_by_key_score] using hw
    · rcases hmem with rfl | hmem
      · exact List.mem_cons_self _ _
      · exact List.mem_cons_of_mem _ hmem
    · intro q hq
      rcases List.mem_cons.mp hq with rfl | hq
      · exact hge
      · exact hall q hq

theorem submitWord_cases (dict : List String) (gs : GameStateR)
    (records : List PlayerRec) (uid : Int) (word : String) (ps : List Position)
    (active : Option String) (hidx : gs.current_player_index < records.length) :
    (∀ n r pid u,
        (submitWord dict gs records uid word ps active).result
            = SubmitResult.advanced n r pid u →
          n = (gs.current_player_index + 1) % records.length
          ∧ r = (if gs.current_player_index = records.length - 1
                  then gs.current_round + 1 else gs.current_round)
          ∧ r ≤ gs.total_rounds
          ∧ (submitWord dict gs records uid word ps active).active_game_id = active
          ∧ (submitWord dict gs records uid word ps active).roundTurn = some (r, pid))
    ∧ (∀ w fs u,
        (submitWord dict gs records uid word ps active).result
            = SubmitResult.gameOver w fs u →
          gs.total_rounds <
              (if gs.current_player_index = records.length - 1
               then gs.current_round + 1 else gs.current_round)
          ∧ (submitWord dict gs records uid word ps active).active_game_id = none
          ∧ (submitWord dict gs records uid word ps active).roundTurn = none
          ∧ fs = (submitWord dict gs records uid word ps active).records.map
                  (fun p => (p.user_id, p.score))
          ∧ ∃ wp ∈ (submitWord dict gs records uid word ps active).records,
              w = some wp.user_id
              ∧ ∀ q ∈ (submitWord dict gs records uid word ps active).records,
                  q.score ≤ wp.score) := by
  have hrc := round_complete_eq records.length gs.current_player_index hidx
  have hne : records ≠ [] := by
    intro hemp
    rw [hemp] at hidx
    simp at hidx
  simp only [submitWord]
  split
  · exact ⟨fun n r pid u h => by simp at h, fun w fs u h => by simp at h⟩
  · split
    · exact ⟨fun n r pid u h => by simp at h, fun w fs u h => by simp at h⟩
    · split
      · exact ⟨fun n r pid u h => by simp at h, fun w fs u h => by simp at h⟩
      · split
        · exact ⟨fun n r pid u h => by simp at h, fun w fs u h => by simp at h⟩
        · split
          · exact ⟨fun n r pid u h => by simp at h, fun w fs u h => by simp at h⟩
          · rename_i word_score heq hnz
            have hmapne : update_player_score records uid word_score ≠ [] := by
              simp [update_player_score, hne]
            split
            · -- round wrapped: round_complete = true, hence index = N - 1
              rename_i hrcT
              rw [hrc] at hrcT
              have hiN : gs.current_player_index = records.length - 1 :=
                of_decide_eq_true hrcT
              split
              · -- game over
                rename_i hgt
                refine ⟨fun n r pid u h => by simp at h, fun w fs u h => ?_⟩
                simp only [SubmitResult.gameOver.injEq] at h
                obtain ⟨hw, hfs, hu⟩ := h
                refine ⟨by first | omega | (simp [hiN]; omega), rfl, rfl, hfs.symm, ?_⟩
                obtain ⟨wp, hwp, hmem, hbound⟩ :=
                  max_by_key_score_spec (update_player_score records uid word_score) hmapne
                refine ⟨wp, hmem, ?_, hbound⟩
                rw [← hw, hwp]
                rfl
              · -- advanced
                rename_i hle
                refine ⟨fun n r pid u h => ?_, fun w fs u h => by simp at h⟩
                simp only [SubmitResult.advanced.injEq] at h
                obtain ⟨hn, hr, hpid, hu⟩ := h
                subst hn
                subst hr
                subst hpid
                exact ⟨rfl, by first | rfl | simp [hiN], by omega, rfl, rfl⟩
            · -- no wrap: round_complete = false, index is not N - 1
              rename_i hrcF
              rw [hrc] at hrcF
              have hiN : ¬ gs.current_player_index = records.length - 1 := by
                simpa using hrcF
              split
              · -- game over without wrap (current round already past the total)
                rename_i hgt
                refine ⟨fun n r pid u h => by simp at h, fun w fs u h => ?_⟩
                simp only [SubmitResult.gameOver.injEq] at h
                obtain ⟨hw, hfs, hu⟩ := h
                refine ⟨by first | omega | (simp [hiN]; omega), rfl, rfl, hfs.symm, ?_⟩
                obtain ⟨wp, hwp, hmem, hbound⟩ :=
                  max_by_key_score_spec (update_player_score records uid word_score) hmapne
                refine ⟨wp, hmem, ?_, hbound⟩
                rw [← hw, hwp]
                rfl
              · -- advanced
                rename_i hle
                refine ⟨fun n r pid u h => ?_, fun w fs u h => by simp at h⟩
                simp only [SubmitResult.advanced.injEq] at h
                obtain ⟨hn, hr, hpid, hu⟩ := h
                subst hn
                subst hr
                subst hpid
                exact ⟨rfl, by first | rfl | simp [hiN], by omega, rfl, rfl⟩

theorem passTurn_cases (gs : GameStateR) (records : List PlayerRec)
    (uid : Int) (active : Option String)
    (hidx : gs.current_player_index < records.length) :
    (∀ n r pid u,
        (passTurn gs records uid active).result = SubmitResult.advanced n r pid u →
          n = (gs.current_player_index + 1) % records.length
          ∧ r = (if gs.current_player_index = records.length - 1
                  then gs.current_round + 1 else gs.current_round)
          ∧ r ≤ gs.total_rounds
          ∧ (passTurn gs records uid active).active_game_id = active
          ∧ (passTurn gs records uid active).roundTurn = some (r, pid))
    ∧ (∀ w fs u,
        (passTurn gs records uid active).result = SubmitResult.gameOver w fs u →
          gs.total_rounds <
              (if gs.current_player_index = records.length - 1
               then gs.current_round + 1 else gs.current_round)
          ∧ (passTurn gs records uid active).active_game_id = none
          ∧ (passTurn gs records uid active).roundTurn = none
          ∧ fs = (passTurn gs records uid active).records.map
                  (fun p => (p.user_id, p.score))
          ∧ ∃ wp ∈ (passTurn gs records uid active).records,
              w = some wp.user_id
              ∧ ∀ q ∈ (passTurn gs records uid active).records,
                  q.score ≤ wp.score) := by
  have hrc := round_complete_eq records.length gs.current_player_index hidx
  have hne : records ≠ [] := by
    intro hemp
    rw [hemp] at hidx
    simp at hidx
  simp only [passTurn]
  split
  · exact ⟨fun n r pid u h => by simp at h, fun w fs u h => by simp at h⟩
  · split
    · exact ⟨fun n r pid u h => by simp at h, fun w fs u h => by simp at h⟩
    · split
      · exact ⟨fun n r pid u h => by simp at h, fun w fs u h => by simp at h⟩
      · split
        · -- round wrapped
          rename_i hrcT
          rw [hrc] at hrcT
          have hiN : gs.current_player_index = records.length - 1 :=
            of_decide_eq_true hrcT
          split
          · -- game over
            rename_i hgt
            refine ⟨fun n r pid u h => by simp at h, fun w fs u h => ?_⟩
            simp only [SubmitResult.gameOver.injEq] at h
            obtain ⟨hw, hfs, hu⟩ := h
            refine ⟨by first | omega | (simp [hiN]; omega), rfl, rfl, hfs.symm, ?_⟩
            obtain ⟨wp, hwp, hmem, hbound⟩ := max_by_key_score_spec records hne
            refine ⟨wp, hmem, ?_, hbound⟩
            rw [← hw, hwp]
            rfl
          · -- advanced
            rename_i hle
            refine ⟨fun n r pid u h => ?_, fun w fs u h => by simp at h⟩
            simp only [SubmitResult.advanced.injEq] at h
            obtain ⟨hn, hr, hpid, hu⟩ := h
            subst hn
            subst hr
            subst hpid
            exact ⟨rfl, by first | rfl | simp [hiN], by omega, rfl, rfl⟩
        · -- no wrap
          rename_i hrcF
          rw [hrc] at hrcF
          have hiN : ¬ gs.current_player_index = records.length - 1 := by
            simpa using hrcF
          split
          · -- game over without wrap
            rename_i hgt
            refine ⟨fun n r pid u h => by simp at h, fun w fs u h => ?_⟩
            simp only [SubmitResult.gameOver.injEq] at h
            obtain ⟨hw, hfs, hu⟩ := h
            refine ⟨by first | omega | (simp [hiN]; omega), rfl, rfl, hfs.symm, ?_⟩
            obtain ⟨wp, hwp, hmem, hbound⟩ := max_by_key_score_spec records hne
            refine ⟨wp, hmem, ?_, hbound⟩
            rw [← hw, hwp]
            rfl
          · -- advanced
            rename_i hle
            refine ⟨fun n r pid u h => ?_, fun w fs u h => by simp at h⟩
            simp only [SubmitResult.advanced.injEq] at h
            obtain ⟨hn, hr, hpid, hu⟩ := h
            subst hn
            subst hr
            subst hpid
            exact ⟨rfl, by first | rfl | simp [hiN], by omega, rfl, rfl⟩

/-- Claim C1: the SubmitWord arm contains no used-words uniqueness check.
With CAT already in the used_words of the session, a re-submission of CAT by
the player whose turn it is is accepted: the reply is a turn advance (round
wraps from index 1 of 2 back to 0), never `InvalidWord` of any reason, and
the broadcast word list receives a second copy of CAT. -/
theorem submitWord_duplicate_word_accepted :
    (submitWord ["CAT"] dupGS dupRecords 2 "CAT" catPath (some "game")).result
        = SubmitResult.advanced 0 2 1 ["CAT", "CAT"]
    ∧ ∀ reason,
        (submitWord ["CAT"] dupGS dupRecords 2 "CAT" catPath (some "game")).result
          ≠ SubmitResult.invalidWord reason := by
  have h :
      (submitWord ["CAT"] dupGS dupRecords 2 "CAT" catPath (some "game")).result
        = SubmitResult.advanced 0 2 1 ["CAT", "CAT"] := by decide
  exact ⟨h, fun reason hr => SubmitResult.noConfusion (h ▸ hr)⟩

/-- Claim C2: `update_player_score` overwrites the persisted score with the
score of the single move (`SET score = $1`), so after a successful submit of
a word worth 8 by a player whose previous persisted score is 5, the
persisted score is 8, not 5 + 8. -/
theorem submitWord_score_overwritten :
    Scorer.calculate_score catGrid catPath = some 8
    ∧ (submitWord ["CAT"] scoreGS scoreRecords 1 "CAT" catPath (some "game")).records
        = [⟨1, 8⟩, ⟨2, 0⟩]
    ∧ (8 : Int) ≠ 5 + 8 := by decide

theorem scoreLoop_spec (grid : Grid) :
    ∀ (ps : List Position) (total : Int) (dw : Bool) (gems : Int),
      (∀ p ∈ ps, (cellAt grid p).isSome) →
      Scorer.scoreLoop grid ps total dw gems
        = some (total + (ps.map (specLetterScore grid)).sum,
            dw || ps.any (cellHasDW grid),
            gems + (ps.countP (cellHasGem grid) : Int)) := by
  intro ps
  induction ps with
  | nil => intro total dw gems _; simp [Scorer.scoreLoop]
  | cons p ps ih =>
    intro total dw gems h
    obtain ⟨cell, hcell⟩ := Option.isSome_iff_exists.mp (h p (List.mem_cons_self p ps))
    have hrest : ∀ q ∈ ps, (cellAt grid q).isSome :=
      fun q hq => h q (List.mem_cons_of_mem p hq)
    rcases hm : cell.multiplier with _ | mult
    · simp only [Scorer.scoreLoop, hcell, hm]
      rw [ih _ _ _ hrest]
      simp [specLetterScore, cellHasDW, cellHasGem, hcell, hm, List.countP_cons]
      constructor
      · push_cast; ring
      · rcases hgem : cell.has_gem <;> push_cast <;> ring_nf <;> simp
    · rcases mult with _ | _ | _
      all_goals
        simp only [Scorer.scoreLoop, hcell, hm]
        rw [ih _ _ _ hrest]
        simp [specLetterScore, cellHasDW, cellHasGem, hcell, hm, List.countP_cons,
          Bool.or_assoc]
        constructor
        · push_cast; ring
        · rcases hgem : cell.has_gem <;> push_cast <;> ring_nf <;> simp

/-- Claim C5: `calculate_score_with_gems` returns the sum of per-cell values
with DL doubled and TL tripled, the whole sum doubled once when any path
cell carries DW, plus a flat +10 exactly when the path has 6 or more
positions (the bonus unaffected by DW); gems_collected counts the path cells
with a gem.  The seeded SPELLS example scores exactly 40. -/
theorem calculate_score_with_gems_spec :
    (∀ (grid : Grid) (ps : List Position),
        (∀ p ∈ ps, (cellAt grid p).isSome) →
        Scorer.calculate_score_with_gems grid ps
          = some
              { score :=
                  (if ps.any (cellHasDW grid) then 2 else 1) *
                      (ps.map (specLetterScore grid)).sum +
                    (if 6 ≤ ps.length then 10 else 0)
                gems_collected := (ps.countP (cellHasGem grid) : Int) })
    ∧ Scorer.calculate_score_with_gems spellsGrid spellsPath
        = some { score := 40, gems_collected := 0 } := by
  constructor
  · intro grid ps h
    unfold Scorer.calculate_score_with_gems
    rw [scoreLoop_spec grid ps 0 false 0 h]
    rcases hdw : ps.any (cellHasDW grid) <;>
      simp [Scorer.length_bonus, ge_iff_le, mul_comm]
  · decide

/-- Witness for claim C5: the SPELLS fixture satisfies the in-bounds
hypothesis and scores 40 with no gems. -/
theorem calculate_score_with_gems_spec_witness :
    (∀ p ∈ spellsPath, (cellAt spellsGrid p).isSome)
    ∧ Scorer.calculate_score_with_gems spellsGrid spellsPath
        = some { score := 40, gems_collected := 0 } :=
  ⟨by decide, by
    rw [calculate_score_with_gems_spec.1 spellsGrid spellsPath (by decide)]
    decide⟩

theorem are_adjacent_iff (p q : Position) :
    WordValidator.are_adjacent p q = true ↔ specAdjacent p q := by
  simp only [WordValidator.are_adjacent, specAdjacent, Bool.and_eq_true,
    decide_eq_true_eq, Int.abs_eq_natAbs]
  omega

theorem chainAdjacent_iff :
    ∀ ps : List Position,
      WordValidator.chainAdjacent ps = true ↔ List.Chain' specAdjacent ps
  | [] => by simp [WordValidator.chainAdjacent]
  | [p] => by simp [WordValidator.chainAdjacent]
  | p1 :: p2 :: rest => by
    rw [List.chain'_cons]
    simp only [WordValidator.chainAdjacent, Bool.and_eq_true]
    rw [are_adjacent_iff, chainAdjacent_iff (p2 :: rest)]

/-- Claim C6: the path validator accepts a position list exactly when it is
non-empty, consecutive positions are 8-way adjacent, no position repeats and
every position lies in the 5x5 bounds; in particular any in-bounds
single-position path is accepted. -/
theorem is_valid_path_spec (g : Grid) :
    (∀ ps : List Position,
        WordValidator.is_valid_path g ps = true ↔
          ps ≠ [] ∧ List.Chain' specAdjacent ps ∧ ps.Nodup ∧
            ∀ p ∈ ps, p.row < 5 ∧ p.col < 5)
    ∧ ∀ p : Position, p.row < 5 → p.col < 5 →
        WordValidator.is_valid_path g [p] = true := by
  have hmain : ∀ ps : List Position,
      WordValidator.is_valid_path g ps = true ↔
        ps ≠ [] ∧ List.Chain' specAdjacent ps ∧ ps.Nodup ∧
          ∀ p ∈ ps, p.row < 5 ∧ p.col < 5 := by
    intro ps
    simp [WordValidator.is_valid_path, chainAdjacent_iff, List.isEmpty_iff,
      and_assoc]
  refine ⟨hmain, fun p h1 h2 => (hmain [p]).mpr ?_⟩
  exact ⟨by simp, by simp, by simp, by simp [h1, h2]⟩

/-- Witness for claim C6: the single-position path (0,0) is accepted. -/
theorem is_valid_path_spec_witness :
    WordValidator.is_valid_path [] [⟨0, 0⟩] = true :=
  (is_valid_path_spec []).2 ⟨0, 0⟩ (by decide) (by decide)

/-- Claim C4: with the random stream that draws 0 everywhere, the generator
makes three double-letter attempts and two triple-letter attempts all at
cell (0,0); only the first sticks, so the produced 5x5 grid carries exactly
one multiplier, far below the claimed lower bound of 5. -/
theorem generate_multiplier_count_undershoots :
    (GridGenerator.generate [] []).1.length = 5
    ∧ (∀ row ∈ (GridGenerator.generate [] []).1, row.length = 5)
    ∧ multiplierCount (GridGenerator.generate [] []).1 = 1
    ∧ multiplierCount (GridGenerator.generate [] []).1 < 5 := by decide

theorem codeChars_length (n : Nat) : ∀ rng, (codeChars n rng).1.length = n := by
  induction n with
  | zero => intro rng; rfl
  | succ n ih => intro rng; simp [codeChars, ih]

theorem codeChars_mem (n : Nat) :
    ∀ rng, ∀ c ∈ (codeChars n rng).1, c ∈ LOBBY_CODE_CHARSET := by
  induction n with
  | zero => intro rng c hc; simp [codeChars] at hc
  | succ n ih =>
    intro rng c hc
    simp only [codeChars, randBelow, List.mem_cons] at hc
    rcases hc with hc | hc
    · subst hc
      have hlt : rng.headD 0 % LOBBY_CODE_CHARSET.length < LOBBY_CODE_CHARSET.length :=
        Nat.mod_lt _ (by decide)
      rw [List.getD_eq_getElem _ _ hlt]
      exact List.getElem_mem hlt
    · exact ih _ c hc

theorem mapGet_insert_self (k : List Char) (v : α) (m : List (List Char × α)) :
    mapGet k (mapInsert k v m) = some v := by
  unfold mapGet mapInsert
  rw [List.find?_cons_of_pos _ (by simp)]
  rfl

/-- Claim C3, amended: `create_custom_lobby` draws a 6-character code from
the 32-character alphabet in a single pass with no collision check; the new
lobby and its code-index entry are inserted unconditionally, replacing any
existing entries under the same keys (so a colliding live lobby is silently
overwritten rather than a fresh code drawn). -/
theorem create_custom_lobby_amended (st : Registry) (rng : Rng) :
    (create_custom_lobby st rng).1.2.length = LOBBY_CODE_LENGTH
    ∧ (∀ c ∈ (create_custom_lobby st rng).1.2, c ∈ LOBBY_CODE_CHARSET)
    ∧ (create_custom_lobby st rng).1.1
        = "custom:".toList ++ (create_custom_lobby st rng).1.2
    ∧ mapGet (create_custom_lobby st rng).1.1 ((create_custom_lobby st rng).2.1).lobbies
        = some { lobby_id := (create_custom_lobby st rng).1.1, isCustom := true
                 lobby_code := some (create_custom_lobby st rng).1.2 }
    ∧ mapGet (create_custom_lobby st rng).1.2
          ((create_custom_lobby st rng).2.1).lobby_code_index
        = some (create_custom_lobby st rng).1.1 := by
  simp only [create_custom_lobby, Lobby.new_custom, generate_lobby_code,
    Option.getD_some]
  refine ⟨codeChars_length _ _, codeChars_mem _ _, trivial, ?_, ?_⟩
  · exact mapGet_insert_self _ _ _
  · exact mapGet_insert_self _ _ _

/-- Witness for the amended C3 theorem at the empty registry and the all-zero
random stream. -/
theorem create_custom_lobby_amended_witness :
    (create_custom_lobby emptyRegistry []).1.2.length = LOBBY_CODE_LENGTH :=
  (create_custom_lobby_amended emptyRegistry []).1

/-- Claim C3, counterexample: starting from the empty registry with a random
stream that always draws 0, the first creation returns code AAAAAA and
registers it; a second creation with the same stream returns AAAAAA again
even though that code is live, so no regeneration on collision happens. -/
theorem create_custom_lobby_collision_not_regenerated :
    (create_custom_lobby emptyRegistry []).1.2 = "AAAAAA".toList
    ∧ mapGet "AAAAAA".toList
          (create_custom_lobby emptyRegistry []).2.1.lobby_code_index
        = some "custom:AAAAAA".toList
    ∧ (create_custom_lobby (create_custom_lobby emptyRegistry []).2.1 []).1.2
        = "AAAAAA".toList := by decide

/-- Claim C7: after a valid submit or pass with N players and current index
i, the advanced reply carries index (i + 1) mod N and a round incremented
exactly when i = N - 1, with the new round and turn persisted and the round
within bounds; the game-over reply happens exactly when the incremented
round exceeds total_rounds, clears the active game from the lobby, persists
no further turn, and names a winner of maximal score among the broadcast
final scores. -/
theorem turn_round_advancement_spec (dict : List String) (gs : GameStateR)
    (records : List PlayerRec) (uid : Int) (word : String) (ps : List Position)
    (active : Option String)
    (hidx : gs.current_player_index < records.length) :
    ((∀ n r pid u,
        (submitWord dict gs records uid word ps active).result
            = SubmitResult.advanced n r pid u →
          n = (gs.current_player_index + 1) % records.length
          ∧ r = (if gs.current_player_index = records.length - 1
                  then gs.current_round + 1 else gs.current_round)
          ∧ r ≤ gs.total_rounds
          ∧ (submitWord dict gs records uid word ps active).active_game_id = active
          ∧ (submitWord dict gs records uid word ps active).roundTurn = some (r, pid))
    ∧ (∀ w fs u,
        (submitWord dict gs records uid word ps active).result
            = SubmitResult.gameOver w fs u →
          gs.total_rounds <
              (if gs.current_player_index = records.length - 1
               then gs.current_round + 1 else gs.current_round)
          ∧ (submitWord dict gs records uid word ps active).active_game_id = none
          ∧ (submitWord dict gs records uid word ps active).roundTurn = none
          ∧ fs = (submitWord dict gs records uid word ps active).records.map
                  (fun p => (p.user_id, p.score))
          ∧ ∃ wp ∈ (submitWord dict gs records uid word ps active).records,
              w = some wp.user_id
              ∧ ∀ q ∈ (submitWord dict gs records uid word ps active).records,
                  q.score ≤ wp.score))
    ∧ ((∀ n r pid u,
        (passTurn gs records uid active).result = SubmitResult.advanced n r pid u →
          n = (gs.current_player_index + 1) % records.length
          ∧ r = (if gs.current_player_index = records.length - 1
                  then gs.current_round + 1 else gs.current_round)
          ∧ r ≤ gs.total_rounds
          ∧ (passTurn gs records uid active).active_game_id = active
          ∧ (passTurn gs records uid active).roundTurn = some (r, pid))
    ∧ (∀ w fs u,
        (passTurn gs records uid active).result = SubmitResult.gameOver w fs u →
          gs.total_rounds <
              (if gs.current_player_index = records.length - 1
               then gs.current_round + 1 else gs.current_round)
          ∧ (passTurn gs records uid active).active_game_id = none
          ∧ (passTurn gs records uid active).roundTurn = none
          ∧ fs = (passTurn gs records uid active).records.map
                  (fun p => (p.user_id, p.score))
          ∧ ∃ wp ∈ (passTurn gs records uid active).records,
              w = some wp.user_id
              ∧ ∀ q ∈ (passTurn gs records uid active).records,
                  q.score ≤ wp.score)) :=
  ⟨submitWord_cases dict gs records uid word ps active hidx,
    passTurn_cases gs records uid active hidx⟩

/-- Witness for claim C7: a pass by the last player of a one-round game ends
the game and clears the lobby active game. -/
theorem turn_round_advancement_spec_witness :
    (passTurn passGS dupRecords 2 (some "game")).active_game_id = none := by
  have happ :=
    (turn_round_advancement_spec ["CAT"] passGS dupRecords 2 "CAT" catPath
        (some "game") (by decide)).2.2
  exact (happ (some 1) [(1, 8), (2, 0)] ["CAT"] (by decide)).2.1

/-- Claim C10: neither the SubmitWord arm nor the PassTurn arm can reach the
`% num_players` with zero players: an empty player list makes the turn
comparison fail first (SubmitWord replies not_your_turn, PassTurn returns
silently), so the division-by-zero panic is unreachable. -/
theorem submit_pass_no_division_panic (dict : List String) (gs : GameStateR)
    (records : List PlayerRec) (uid : Int) (word : String) (ps : List Position)
    (active : Option String) :
    ((submitWord dict gs records uid word ps active).result
        ≠ SubmitResult.panicDivByZero)
    ∧ (records = [] →
        (submitWord dict gs records uid word ps active).result
          = SubmitResult.notYourTurn)
    ∧ ((passTurn gs records uid active).result ≠ SubmitResult.panicDivByZero)
    ∧ (records = [] →
        (passTurn gs records uid active).result = SubmitResult.silentReturn) := by
  refine ⟨?_, ?_, ?_, ?_⟩
  · simp only [submitWord]
    split
    · simp
    · split
      · simp
      · split
        · simp
        · split
          · simp
          · split
            · -- the % 0 branch is unreachable: the turn check succeeded
              rename_i hturn hpath hdict x ws heq hz
              exfalso
              rw [not_not] at hturn
              obtain ⟨p, hp, _⟩ := Option.map_eq_some'.mp hturn
              obtain ⟨hlt, _⟩ := List.get?_eq_some.mp hp
              omega
            · split <;> split <;> simp
  · intro hemp
    subst hemp
    simp [submitWord]
  · simp only [passTurn]
    split
    · simp
    · split
      · simp
      · split
        · -- the % 0 branch is unreachable: the list is non-empty
          rename_i hnem hturn hz
          exfalso
          have hnil : records = [] := List.length_eq_zero.mp hz
          subst hnil
          simp at hnem
        · split <;> split <;> simp
  · intro hemp
    subst hemp
    simp [passTurn]

/-- Witness for claim C10 at the empty player list. -/
theorem submit_pass_no_division_panic_witness :
    (submitWord [] dupGS [] 0 "X" [] none).result = SubmitResult.notYourTurn
    ∧ (passTurn dupGS [] 0 none).result = SubmitResult.silentReturn :=
  ⟨(submit_pass_no_division_panic [] dupGS [] 0 "X" [] none).2.1 rfl,
    (submit_pass_no_division_panic [] dupGS [] 0 "X" [] none).2.2.2 rfl⟩

/-- Claim C8: in `handle_start_game`, once `try_start_game` has succeeded
(lobby idle, sender is host), every error path reports its code with the
`game_starting` flag already cleared: fewer than 2 connected players gives
not_enough_players, more than 6 gives too_many_players, and each
persistence or serialization failure gives its code, always with the flag
cleared so a retry is possible. -/
theorem handle_start_game_clears_flag (l : LobbyStart) (uid : Int)
    (o : StartGameOracle) (hhost : l.is_host uid = true)
    (hact : l.active_game_id = none) (hflag : l.game_starting = false) :
    (∀ e, (handle_start_game l uid o).1 = Except.error e →
        (handle_start_game l uid o).2.game_starting = false)
    ∧ (l.connected_player_count < 2 →
        (handle_start_game l uid o).1 = Except.error "not_enough_players")
    ∧ (l.connected_player_count > 6 →
        (handle_start_game l uid o).1 = Except.error "too_many_players")
    ∧ (2 ≤ l.connected_player_count → l.connected_player_count ≤ 6 →
        o.createSession = none →
        (handle_start_game l uid o).1 = Except.error "database_error")
    ∧ (2 ≤ l.connected_player_count → l.connected_player_count ≤ 6 →
        o.createSession.isSome → o.addPlayersOk = false →
        (handle_start_game l uid o).1 = Except.error "database_error")
    ∧ (2 ≤ l.connected_player_count → l.connected_player_count ≤ 6 →
        o.createSession.isSome → o.addPlayersOk = true →
        o.serializeGridOk = false →
        (handle_start_game l uid o).1 = Except.error "serialization_error")
    ∧ (2 ≤ l.connected_player_count → l.connected_player_count ≤ 6 →
        o.createSession.isSome → o.addPlayersOk = true →
        o.serializeGridOk = true → o.createBoardOk = false →
        (handle_start_game l uid o).1 = Except.error "database_error")
    ∧ (2 ≤ l.connected_player_count → l.connected_player_count ≤ 6 →
        o.createSession.isSome → o.addPlayersOk = true →
        o.serializeGridOk = true → o.createBoardOk = true →
        o.setActiveOk = false →
        (handle_start_game l uid o).1 = Except.error "database_error") := by
  have hcount : ({ l with game_starting := true } : LobbyStart).connected_player_count
      = l.connected_player_count := rfl
  simp only [handle_start_game, hhost, LobbyStart.try_start_game, hact, hflag,
    Bool.not_true, and_self, if_true, if_false, ite_true, ite_false,
    not_true_eq_false, not_false_eq_true, reduceIte]
  refine ⟨?_, ?_, ?_, ?_, ?_, ?_, ?_, ?_⟩
  · intro e
    split
    · intro _; rfl
    · split
      · intro _; rfl
      · rcases o.createSession with _ | g
        · intro _; rfl
        · rcases haddp : o.addPlayersOk with _ | _
          · simp [haddp]
            intro _; rfl
          · rcases hser : o.serializeGridOk with _ | _
            · simp [haddp, hser]
              intro _; rfl
            · rcases hboard : o.createBoardOk with _ | _
              · simp [haddp, hser, hboard]
                intro _; rfl
              · rcases hset : o.setActiveOk with _ | _
                · simp [haddp, hser, hboard, hset]
                  intro _; rfl
                · simp [haddp, hser, hboard, hset]
  · intro hcc
    simp only [LobbyStart.connected_player_count] at hcc
    simp [LobbyStart.connected_player_count, hcc]
  · intro hcc
    simp only [LobbyStart.connected_player_count] at hcc
    have h1 : ¬ (List.filter (fun p => p.2) l.players).length < 2 := by omega
    simp [LobbyStart.connected_player_count, h1, hcc]
  · intro hcc1 hcc2 hcs
    simp only [LobbyStart.connected_player_count] at hcc1 hcc2
    have h1 : ¬ (List.filter (fun p => p.2) l.players).length < 2 := by omega
    have h2 : ¬ (List.filter (fun p => p.2) l.players).length > 6 := by omega
    simp [LobbyStart.connected_player_count, h1, h2, hcs]
  · intro hcc1 hcc2 hcs haddp
    obtain ⟨g, hg⟩ := Option.isSome_iff_exists.mp hcs
    simp only [LobbyStart.connected_player_count] at hcc1 hcc2
    have h1 : ¬ (List.filter (fun p => p.2) l.players).length < 2 := by omega
    have h2 : ¬ (List.filter (fun p => p.2) l.players).length > 6 := by omega
    simp [LobbyStart.connected_player_count, h1, h2, hg, haddp]
  · intro hcc1 hcc2 hcs haddp hser
    obtain ⟨g, hg⟩ := Option.isSome_iff_exists.mp hcs
    simp only [LobbyStart.connected_player_count] at hcc1 hcc2
    have h1 : ¬ (List.filter (fun p => p.2) l.players).length < 2 := by omega
    have h2 : ¬ (List.filter (fun p => p.2) l.players).length > 6 := by omega
    simp [LobbyStart.connected_player_count, h1, h2, hg, haddp, hser]
  · intro hcc1 hcc2 hcs haddp hser hboard
    obtain ⟨g, hg⟩ := Option.isSome_iff_exists.mp hcs
    simp only [LobbyStart.connected_player_count] at hcc1 hcc2
    have h1 : ¬ (List.filter (fun p => p.2) l.players).length < 2 := by omega
    have h2 : ¬ (List.filter (fun p => p.2) l.players).length > 6 := by omega
    simp [LobbyStart.connected_player_count, h1, h2, hg, haddp, hser, hboard]
  · intro hcc1 hcc2 hcs haddp hser hboard hset
    obtain ⟨g, hg⟩ := Option.isSome_iff_exists.mp hcs
    simp only [LobbyStart.connected_player_count] at hcc1 hcc2
    have h1 : ¬ (List.filter (fun p => p.2) l.players).length < 2 := by omega
    have h2 : ¬ (List.filter (fun p => p.2) l.players).length > 6 := by omega
    simp [LobbyStart.connected_player_count, h1, h2, hg, haddp, hser, hboard, hset]

/-- Witness for claim C8: a single-player lobby yields not_enough_players
with the flag cleared. -/
theorem handle_start_game_clears_flag_witness :
    (handle_start_game startLobby 1 startOracle).1
        = Except.error "not_enough_players"
    ∧ (handle_start_game startLobby 1 startOracle).2.game_starting = false := by
  have h := handle_start_game_clears_flag startLobby 1 startOracle
    (by decide) rfl rfl
  exact ⟨h.2.1 (by decide), h.1 "not_enough_players" (h.2.1 (by decide))⟩

theorem find?_filter_ne {α : Type} (m : List (List Char × α)) (k lid : List Char)
    (h : lid ≠ k) :
    (m.filter fun e => e.1 ≠ k).find? (fun e => e.1 = lid)
      = m.find? (fun e => e.1 = lid) := by
  rw [List.find?_filter]
  congr 1
  funext a
  by_cases ha : a.1 = lid
  · have hak : ¬ a.1 = k := fun hc => h (ha ▸ hc)
    simp [ha, hak, h]
  · simp [ha]

theorem mapGet_insert_ne {α : Type} (k lid : List Char) (v : α)
    (m : List (List Char × α)) (h : lid ≠ k) :
    mapGet lid (mapInsert k v m) = mapGet lid m := by
  unfold mapGet mapInsert
  rw [List.find?_cons_of_neg _ (by simp [Ne.symm h]), find?_filter_ne m k lid h]

theorem mapGet_remove_self {α : Type} (k : List Char) (m : List (List Char × α)) :
    mapGet k (mapRemove k m) = none := by
  unfold mapGet mapRemove
  rw [List.find?_eq_none.mpr]
  · rfl
  · intro e he
    simp at he ⊢
    exact fun hc => absurd hc he.2

theorem mapGet_remove_ne {α : Type} (k lid : List Char)
    (m : List (List Char × α)) (h : lid ≠ k) :
    mapGet lid (mapRemove k m) = mapGet lid m := by
  unfold mapGet mapRemove
  rw [find?_filter_ne m k lid h]

theorem mem_of_mapGet {α : Type} (k : List Char) (v : α)
    (m : List (List Char × α)) (h : mapGet k m = some v) : (k, v) ∈ m := by
  unfold mapGet at h
  obtain ⟨e, he, hev⟩ := Option.map_eq_some'.mp h
  have hk := List.find?_some he
  have hmem := List.mem_of_find?_eq_some he
  simp at hk
  obtain ⟨e1, e2⟩ := e
  simp at hk hev
  rw [hk, hev] at hmem
  exact hmem

theorem mapGet_of_mem {α : Type} (k : List Char) (v : α)
    (m : List (List Char × α)) (hWF : (m.map Prod.fst).Nodup)
    (h : (k, v) ∈ m) : mapGet k m = some v := by
  induction m with
  | nil => simp at h
  | cons e m ih =>
    simp only [List.map_cons, List.nodup_cons] at hWF
    rcases List.mem_cons.mp h with rfl | hmem
    · unfold mapGet
      rw [List.find?_cons_of_pos _ (by simp)]
      rfl
    · have hek : e.1 ≠ k := by
        intro hc
        exact hWF.1 (hc ▸ List.mem_map_of_mem Prod.fst hmem)
      unfold mapGet
      rw [List.find?_cons_of_neg _ (by simp [hek])]
      exact ih hWF.2 hmem

theorem removeStalePlayer_lookup (st : CleanupState) (bl : List (List Char))
    (pr : List Char × Int) (lid : List Char) :
    mapGet lid (Cleanup.removeStalePlayer (st, bl) pr).1.lobbies
      = if lid = pr.1
        then (mapGet lid st.lobbies).map
          (fun l => { l with players := l.players.filter fun p => p.1 ≠ pr.2 })
        else mapGet lid st.lobbies := by
  unfold Cleanup.removeStalePlayer
  rcases h : mapGet pr.1 st.lobbies with _ | lobby
  · by_cases he : lid = pr.1
    · subst he
      simp [h]
    · simp [he]
  · by_cases he : lid = pr.1
    · subst he
      simp [h, mapGet_insert_self]
    · simp [he, mapGet_insert_ne pr.1 lid _ st.lobbies he]

theorem removeStalePlayer_broadcast (st : CleanupState) (bl : List (List Char))
    (pr : List Char × Int) :
    (Cleanup.removeStalePlayer (st, bl) pr).2
      = if (mapGet pr.1 st.lobbies).isSome then bl ++ [pr.1] else bl := by
  unfold Cleanup.removeStalePlayer
  rcases h : mapGet pr.1 st.lobbies with _ | lobby <;> simp [h]

theorem phase1_lookup (R : List (List Char × Int)) :
    ∀ (st : CleanupState) (bl : List (List Char)) (lid : List Char),
      mapGet lid (R.foldl Cleanup.removeStalePlayer (st, bl)).1.lobbies
        = (mapGet lid st.lobbies).map
            (fun l =>
              { l with players := l.players.filter fun p => ¬ (lid, p.1) ∈ R }) := by
  induction R with
  | nil =>
    intro st bl lid
    simp only [List.foldl_nil]
    rcases h : mapGet lid st.lobbies with _ | l
    · rfl
    · simp [List.filter_true]
  | cons r R ih =>
    intro st bl lid
    have hstep :
        R.foldl Cleanup.removeStalePlayer (Cleanup.removeStalePlayer (st, bl) r)
          = R.foldl Cleanup.removeStalePlayer
              ((Cleanup.removeStalePlayer (st, bl) r).1,
                (Cleanup.removeStalePlayer (st, bl) r).2) := rfl
    rw [List.foldl_cons, hstep, ih _ _ lid, removeStalePlayer_lookup]
    by_cases he : lid = r.1
    · rw [if_pos he]
      rcases h : mapGet lid st.lobbies with _ | l
      · rfl
      · simp only [Option.map_some']
        congr 1
        congr 1
        simp only [List.filter_filter]
        apply List.filter_congr
        intro p _
        rcases r with ⟨r1, r2⟩
        simp only at he
        subst he
        by_cases h1 : p.1 = r2 <;> by_cases h2 : (lid, p.1) ∈ R <;>
          simp_all [Prod.ext_iff]
    · rw [if_neg he]
      rcases h : mapGet lid st.lobbies with _ | l
      · rfl
      · simp only [Option.map_some']
        congr 1
        congr 1
        apply List.filter_congr
        intro p _
        have hne : ¬ (lid, p.1) = r := fun hc => he (by rw [← hc])
        simp [hne]

theorem phase1_bl_mono (R : List (List Char × Int)) :
    ∀ (st : CleanupState) (bl : List (List Char)) (x : List Char), x ∈ bl →
      x ∈ (R.foldl Cleanup.removeStalePlayer (st, bl)).2 := by
  induction R with
  | nil => intro st bl x hx; simpa using hx
  | cons r R ih =>
    intro st bl x hx
    have hstep :
        (r :: R).foldl Cleanup.removeStalePlayer (st, bl)
          = R.foldl Cleanup.removeStalePlayer
              ((Cleanup.removeStalePlayer (st, bl) r).1,
                (Cleanup.removeStalePlayer (st, bl) r).2) := rfl
    rw [hstep]
    apply ih
    rw [removeStalePlayer_broadcast]
    split
    · exact List.mem_append_left _ hx
    · exact hx

theorem phase1_isSome (R : List (List Char × Int)) :
    ∀ (st : CleanupState) (bl : List (List Char)) (lid : List Char),
      (mapGet lid st.lobbies).isSome →
      (mapGet lid (R.foldl Cleanup.removeStalePlayer (st, bl)).1.lobbies).isSome := by
  intro st bl lid h
  rw [phase1_lookup]
  simpa using h

theorem phase1_broadcast (R : List (List Char × Int)) :
    ∀ (st : CleanupState) (bl : List (List Char)) (pr : List Char × Int),
      pr ∈ R → (mapGet pr.1 st.lobbies).isSome →
      pr.1 ∈ (R.foldl Cleanup.removeStalePlayer (st, bl)).2 := by
  induction R with
  | nil => intro st bl pr hpr; simp at hpr
  | cons r R ih =>
    intro st bl pr hpr hsome
    have hstep :
        (r :: R).foldl Cleanup.removeStalePlayer (st, bl)
          = R.foldl Cleanup.removeStalePlayer
              ((Cleanup.removeStalePlayer (st, bl) r).1,
                (Cleanup.removeStalePlayer (st, bl) r).2) := rfl
    rw [hstep]
    rcases List.mem_cons.mp hpr with rfl | hpr
    · apply phase1_bl_mono
      rw [removeStalePlayer_broadcast]
      rw [if_pos hsome]
      simp
    · apply ih _ _ pr hpr
      rw [removeStalePlayer_lookup]
      split
      · simpa using hsome
      · exact hsome

theorem removeStaleLobby_lookup (st : CleanupState) (l0 lid : List Char) :
    mapGet lid (Cleanup.removeStaleLobby st l0).lobbies
      = if lid = l0 then none else mapGet lid st.lobbies := by
  unfold Cleanup.removeStaleLobby
  rcases h : mapGet l0 st.lobbies with _ | lob
  · by_cases he : lid = l0
    · subst he
      simp [h]
    · simp [he]
  · by_cases he : lid = l0
    · subst he
      simp [mapGet_remove_self]
    · simp [he, mapGet_remove_ne l0 lid st.lobbies he]

theorem removeStaleLobby_index_none (st : CleanupState) (l0 c : List Char)
    (h : mapGet c st.lobby_code_index = none) :
    mapGet c (Cleanup.removeStaleLobby st l0).lobby_code_index = none := by
  unfold Cleanup.removeStaleLobby
  rcases hlob : mapGet l0 st.lobbies with _ | lob
  · exact h
  · rcases hc : lob.lobby_code with _ | code
    · simp [hc, h]
    · by_cases he : c = code
      · subst he
        simp [hc, mapGet_remove_self]
      · simp [hc, mapGet_remove_ne code c st.lobby_code_index he, h]

theorem phase2_lookup (L : List (List Char)) :
    ∀ (st : CleanupState) (lid : List Char),
      mapGet lid (L.foldl Cleanup.removeStaleLobby st).lobbies
        = if lid ∈ L then none else mapGet lid st.lobbies := by
  induction L with
  | nil => intro st lid; simp
  | cons l0 L ih =>
    intro st lid
    rw [List.foldl_cons, ih, removeStaleLobby_lookup]
    by_cases hL : lid ∈ L
    · simp [hL]
    · by_cases he : lid = l0 <;> simp [hL, he]

theorem phase2_index_none (L : List (List Char)) :
    ∀ (st : CleanupState) (c : List Char),
      mapGet c st.lobby_code_index = none →
      mapGet c (L.foldl Cleanup.removeStaleLobby st).lobby_code_index = none := by
  induction L with
  | nil => intro st c h; simpa using h
  | cons l0 L ih =>
    intro st c h
    rw [List.foldl_cons]
    exact ih _ c (removeStaleLobby_index_none st l0 c h)

theorem phase2_index_removed (L : List (List Char)) :
    ∀ (st : CleanupState) (lid : List Char) (lob : CleanLobby) (c : List Char),
      lid ∈ L → mapGet lid st.lobbies = some lob → lob.lobby_code = some c →
      mapGet c (L.foldl Cleanup.removeStaleLobby st).lobby_code_index = none := by
  induction L with
  | nil => intro st lid lob c hL; simp at hL
  | cons l0 L ih =>
    intro st lid lob c hL hlook hcode
    rw [List.foldl_cons]
    by_cases he : lid = l0
    · subst he
      apply phase2_index_none
      unfold Cleanup.removeStaleLobby
      simp [hlook, hcode, mapGet_remove_self]
    · rcases List.mem_cons.mp hL with hc | hL2
      · exact absurd hc he
      · apply ih _ lid lob c hL2 _ hcode
        rw [removeStaleLobby_lookup, if_neg he]
        exact hlook

theorem keys_unique {κ α : Type} (m : List (κ × α))
    (h : (m.map Prod.fst).Nodup) (k : κ) (a b : α)
    (ha : (k, a) ∈ m) (hb : (k, b) ∈ m) : a = b := by
  induction m with
  | nil => simp at ha
  | cons e m ih =>
    simp only [List.map_cons, List.nodup_cons] at h
    rcases List.mem_cons.mp ha with rfl | ha2
    · rcases List.mem_cons.mp hb with heq | hb2
      · exact (Prod.mk.injEq _ _ _ _ ▸ heq.symm).2
      · exact absurd (List.mem_map_of_mem Prod.fst hb2) h.1
    · rcases List.mem_cons.mp hb with rfl | hb2
      · exact absurd (List.mem_map_of_mem Prod.fst ha2) h.1
      · exact ih h.2 ha2 hb2

theorem players_to_remove_mem (now : Nat) (st : CleanupState) (lid : List Char)
    (l : CleanLobby) (uid : Int) (since : Nat)
    (hWFreg : (st.lobbies.map Prod.fst).Nodup)
    (hfound : mapGet lid st.lobbies = some l)
    (hWFl : (l.players.map Prod.fst).Nodup)
    (hmem : (uid, PlayerConnectionState.AwaitingReconnect since) ∈ l.players) :
    (lid, uid) ∈ Cleanup.players_to_remove now st
      ↔ duration_since now since > PLAYER_DISCONNECT_GRACE_PERIOD := by
  constructor
  · intro h
    simp only [Cleanup.players_to_remove, List.mem_flatMap, List.mem_filterMap] at h
    obtain ⟨e, he, p, hp, hfp⟩ := h
    rcases e with ⟨e1, e2⟩
    rcases p with ⟨puid, pcs⟩
    rcases pcs with _ | psince
    · simp at hfp
    · simp only at hfp
      split at hfp
      · simp only [Option.some_inj, Prod.mk.injEq] at hfp
        obtain ⟨he1, hp1⟩ := hfp
        have he2 : (lid, e2) ∈ st.lobbies := by
          rw [← he1]
          exact he
        have hel : e2 = l := keys_unique st.lobbies hWFreg lid e2 l he2
          (mem_of_mapGet lid l st.lobbies hfound)
        have hp2 : (uid, PlayerConnectionState.AwaitingReconnect psince) ∈ l.players := by
          rw [← hp1, ← hel]
          exact hp
        have hcs := keys_unique l.players hWFl uid _ _ hp2 hmem
        cases hcs
        assumption
      · simp at hfp
  · intro h
    simp only [Cleanup.players_to_remove, List.mem_flatMap, List.mem_filterMap]
    refine ⟨(lid, l), mem_of_mapGet lid l st.lobbies hfound,
      (uid, PlayerConnectionState.AwaitingReconnect since), hmem, ?_⟩
    simp [h]

theorem lobbies_to_remove_mem (now : Nat) (st : CleanupState) (lid : List Char)
    (l : CleanLobby)
    (hWFreg : (st.lobbies.map Prod.fst).Nodup)
    (hfound : mapGet lid st.lobbies = some l) :
    lid ∈ Cleanup.lobbies_to_remove now st
      ↔ ∃ t, l.empty_since = some t
          ∧ duration_since now t > LOBBY_EMPTY_GRACE_PERIOD := by
  constructor
  · intro h
    simp only [Cleanup.lobbies_to_remove, List.mem_filterMap] at h
    obtain ⟨e, he, hfe⟩ := h
    rcases e with ⟨e1, e2⟩
    rcases ht : e2.empty_since with _ | t
    · simp [ht] at hfe
    · simp only [ht] at hfe
      split at hfe
      · simp only [Option.some_inj] at hfe
        have he2 : (lid, e2) ∈ st.lobbies := by
          rw [← hfe]
          exact he
        have hel : e2 = l := keys_unique st.lobbies hWFreg lid e2 l he2
          (mem_of_mapGet lid l st.lobbies hfound)
        rw [hel] at ht
        exact ⟨t, ht, by assumption⟩
      · simp at hfe
  · intro h
    obtain ⟨t, ht, hgt⟩ := h
    simp only [Cleanup.lobbies_to_remove, List.mem_filterMap]
    exact ⟨(lid, l), mem_of_mapGet lid l st.lobbies hfound, by simp [ht, hgt]⟩

/-- Claim C9: under one cleanup sweep at time `now`, a lobby (with distinct
registry keys and distinct player keys) is removed from the registry exactly
when its `empty_since` grace of 120 s has elapsed, and a removed lobby loses
its code-index entry; in a surviving lobby, a player in
`AwaitingReconnect{since}` is removed exactly when `now - since` exceeds the
60 s grace, with that lobby receiving a player-list re-broadcast, and is
retained untouched otherwise. -/
theorem cleanup_sweep_spec (now : Nat) (st : CleanupState) (lid : List Char)
    (l : CleanLobby)
    (hWFreg : (st.lobbies.map Prod.fst).Nodup)
    (hfound : mapGet lid st.lobbies = some l)
    (hWFl : (l.players.map Prod.fst).Nodup) :
    (mapGet lid (Cleanup.sweep now st).1.lobbies = none
       ↔ ∃ t, l.empty_since = some t
           ∧ duration_since now t > LOBBY_EMPTY_GRACE_PERIOD)
    ∧ (∀ t c, l.empty_since = some t →
        duration_since now t > LOBBY_EMPTY_GRACE_PERIOD → l.lobby_code = some c →
        mapGet c (Cleanup.sweep now st).1.lobby_code_index = none)
    ∧ (∀ uid since l2,
        (uid, PlayerConnectionState.AwaitingReconnect since) ∈ l.players →
        mapGet lid (Cleanup.sweep now st).1.lobbies = some l2 →
        if duration_since now since > PLAYER_DISCONNECT_GRACE_PERIOD
        then (∀ cs, (uid, cs) ∉ l2.players) ∧ lid ∈ (Cleanup.sweep now st).2
        else (uid, PlayerConnectionState.AwaitingReconnect since) ∈ l2.players) := by
  have hsw1 : (Cleanup.sweep now st).1
      = (Cleanup.lobbies_to_remove now st).foldl Cleanup.removeStaleLobby
          ((Cleanup.players_to_remove now st).foldl
            Cleanup.removeStalePlayer (st, [])).1 := rfl
  have hsw2 : (Cleanup.sweep now st).2
      = ((Cleanup.players_to_remove now st).foldl
          Cleanup.removeStalePlayer (st, [])).2 := rfl
  have hA : mapGet lid ((Cleanup.players_to_remove now st).foldl
        Cleanup.removeStalePlayer (st, [])).1.lobbies
      = some { l with players := l.players.filter (fun p => ¬ (lid, p.1) ∈ Cleanup.players_to_remove now st) } := by
    rw [phase1_lookup, hfound]
    rfl
  have hfinal : mapGet lid (Cleanup.sweep now st).1.lobbies
      = if lid ∈ Cleanup.lobbies_to_remove now st then none
        else some { l with players := l.players.filter (fun p => ¬ (lid, p.1) ∈ Cleanup.players_to_remove now st) } := by
    rw [hsw1, phase2_lookup, hA]
  refine ⟨?_, ?_, ?_⟩
  · have h1 : mapGet lid (Cleanup.sweep now st).1.lobbies = none
        ↔ lid ∈ Cleanup.lobbies_to_remove now st := by
      rw [hfinal]
      by_cases hmemL : lid ∈ Cleanup.lobbies_to_remove now st <;> simp [hmemL]
    exact h1.trans (lobbies_to_remove_mem now st lid l hWFreg hfound)
  · intro t c ht hgt hcode
    have hmemL : lid ∈ Cleanup.lobbies_to_remove now st :=
      (lobbies_to_remove_mem now st lid l hWFreg hfound).mpr ⟨t, ht, hgt⟩
    rw [hsw1]
    exact phase2_index_removed _ _ lid _ c hmemL hA hcode
  · intro uid since l2 hm hl2
    have hl2e : l2 = { l with players := l.players.filter (fun p => ¬ (lid, p.1) ∈ Cleanup.players_to_remove now st) } := by
      rw [hfinal] at hl2
      by_cases hmemL : lid ∈ Cleanup.lobbies_to_remove now st
      · rw [if_pos hmemL] at hl2
        cases hl2
      · rw [if_neg hmemL] at hl2
        exact (Option.some_inj.mp hl2).symm
    have hchar := players_to_remove_mem now st lid l uid since hWFreg hfound hWFl hm
    by_cases hexp : duration_since now since > PLAYER_DISCONNECT_GRACE_PERIOD
    · rw [if_pos hexp]
      constructor
      · intro cs hcs
        rw [hl2e] at hcs
        simp only [List.mem_filter, decide_eq_true_eq] at hcs
        exact hcs.2 (hchar.mpr hexp)
      · rw [hsw2]
        exact phase1_broadcast _ st [] (lid, uid) (hchar.mpr hexp) (by simp [hfound])
    · rw [if_neg hexp]
      rw [hl2e]
      simp only [List.mem_filter, decide_eq_true_eq]
      exact ⟨hm, fun hin => hexp (hchar.mp hin)⟩

/-- Witness for claim C9: at time 200 the fixture lobby (empty since 0) and
its code-index entry are both removed. -/
theorem cleanup_sweep_spec_witness :
    mapGet "L".toList (Cleanup.sweep 200 cleanupStateFx).1.lobbies = none
    ∧ mapGet "AAAAAA".toList
        (Cleanup.sweep 200 cleanupStateFx).1.lobby_code_index = none := by
  have h := cleanup_sweep_spec 200 cleanupStateFx "L".toList cleanLobbyFx
    (by decide) (by decide) (by decide)
  exact ⟨h.1.mpr ⟨0, rfl, by decide⟩, h.2.1 0 "AAAAAA".toList rfl (by decide) rfl⟩

end SpellCast
